import Mathlib

/-!
Verification development for the github-backup repository.

The repository has two program variants: a subprocess variant
(`github-backup.go` + `backup/mirror.go`, shelling out to git) and a
libgit2 variant (`mirror.go` + the unnamed main file, using git2go).
Go strings are embedded as `List Char`; the filesystem, the GitHub API
and the git operations are abstracted as explicit environments, and the
effectful functions return the value the Go code returns together with
the trace of external operations they perform.
-/

/-- Go strings, embedded as lists of characters. -/
abbrev GoStr := List Char

/-- Shorthand to build a `GoStr` from a string literal. -/
def gs (s : String) : GoStr := s.toList

/-- Model of `strings.Split(s, sep)` for a single-character separator `c`:
splits `s` around every occurrence of `c`; the empty string yields `[""]`. -/
def splitChar (c : Char) : GoStr → List GoStr
  | [] => [[]]
  | x :: xs =>
    let r := splitChar c xs
    if x = c then [] :: r else (x :: r.headD []) :: r.tail

/-- Joining a list of path segments with `/` separators
(the inverse direction of `splitChar '/'`). -/
def joinSegs : List GoStr → GoStr
  | [] => []
  | [s] => s
  | s :: t :: rest => s ++ '/' :: joinSegs (t :: rest)

/-- The segment-processing loop of Go's `path.Clean`: drops empty and `.`
segments, resolves `..` against the accumulator (a reversed stack of the
segments kept so far); a `..` at the root of a rooted path is discarded. -/
def cleanSegsAux (rooted : Bool) : List GoStr → List GoStr → List GoStr
  | acc, [] => acc.reverse
  | acc, s :: rest =>
    if s = [] ∨ s = ['.'] then cleanSegsAux rooted acc rest
    else if s = ['.', '.'] then
      match acc with
      | [] => cleanSegsAux rooted (if rooted then [] else [['.', '.']]) rest
      | a :: as =>
        if a = ['.', '.'] then cleanSegsAux rooted (s :: a :: as) rest
        else cleanSegsAux rooted as rest
    else cleanSegsAux rooted (s :: acc) rest

/-- Go's `path.Clean`: lexical simplification of a slash-separated path. -/
def clean (p : GoStr) : GoStr :=
  if p = [] then ['.']
  else if p.head? = some '/' then
    '/' :: joinSegs (cleanSegsAux true [] (splitChar '/' p))
  else
    let out := cleanSegsAux false [] (splitChar '/' p)
    if out = [] then ['.'] else joinSegs out

/-- The element-joining loop of Go's `path.Join`: empty elements before the
first non-empty one are skipped; every element after the first non-empty one
(empty or not) is preceded by a `/`. -/
def goJoinRaw : List GoStr → GoStr
  | [] => []
  | [] :: rest => goJoinRaw rest
  | (c :: cs) :: rest => (c :: cs) ++ rest.flatMap (fun x => '/' :: x)

/-- Go's `path.Join(elem...)`: returns `""` when the total size of the
elements is zero, otherwise `Clean` of the elements joined with `/`. -/
def goJoin (elems : List GoStr) : GoStr :=
  if (elems.map List.length).sum = 0 then [] else clean (goJoinRaw elems)

/-- The parts of a parsed `net/url.URL` that the program reads. -/
structure GoURL where
  host : GoStr
  path : GoStr
deriving DecidableEq

/-- The mirror-path derivation from `processQueue`
(github-backup.go lines 171–176): join the backup root, the URL host with a
trailing `:port` stripped, and the segments of the URL path. -/
def derivedMirrorPath (backupDir : GoStr) (remote : GoURL) : GoStr :=
  let host := (splitChar ':' remote.host).headD []
  goJoin ([backupDir, host] ++ splitChar '/' remote.path)

example : splitChar '/' (gs "/alice/repo.git") = [[], gs "alice", gs "repo.git"] := by decide

example : clean (gs "/a//b/./c/../d") = gs "/a/b/d" := by decide

example : goJoin [gs "/backups", gs "github.com", [], gs "alice", gs "repo.git"]
    = gs "/backups/github.com/alice/repo.git" := by decide

example : derivedMirrorPath (gs "/backups")
    ⟨gs "github.com:443", gs "/alice/repo.git"⟩
    = gs "/backups/github.com/alice/repo.git" := by decide

/-- The category of an `os.Stat` result that the mirror code distinguishes:
the path does not exist, is a directory, or is a non-directory file. -/
inductive FileStat where
  | absent
  | dir
  | file
deriving DecidableEq

namespace Backup

/-- The external effects used by the subprocess variant
(`backup/mirror.go`): `os.Stat`, `os.MkdirAll` (true = success),
`git clone --mirror <remote> <path>` and `git fetch --prune origin`
run in `<path>` (each returning `none` on success, `some err` on failure). -/
structure GitEnv where
  stat : GoStr → FileStat
  mkdirAll : GoStr → Bool
  clone : GoURL → GoStr → Option GoStr
  fetch : GoStr → Option GoStr

/-- The external operations the subprocess variant can perform. -/
inductive GitOp where
  | mkdirAll (path : GoStr)
  | cloneMirror (remote : GoURL) (path : GoStr)
  | fetchPrune (path : GoStr)
deriving DecidableEq

/-- The `backup.Mirror` struct; a method receiver may be nil. -/
structure Mirror where
  path : GoStr
deriving DecidableEq

/-- Model of `backup.NewMirror`. -/
def NewMirror (path : GoStr) : Option Mirror :=
  some ⟨path⟩

/-- The unconditional tail of `Mirror.Backup`: run
`git fetch --prune origin` in the mirror directory and return its error. -/
def runFetch (env : GitEnv) (path : GoStr) (ops : List GitOp) :
    Option GoStr × List GitOp :=
  (env.fetch path, ops ++ [.fetchPrune path])

/-- Model of `(*backup.Mirror).Backup` (backup/mirror.go lines 18–54), as the pair of
the returned error and the trace of external operations performed. `verbose`
only wires the subprocesses' stderr to the parent's and does not change the
result. -/
def Mirror.Backup (env : GitEnv) (b : Option Mirror) (remote : GoURL)
    (verbose : Bool) : Option GoStr × List GitOp :=
  match b with
  | none => (none, [])
  | some m =>
    match env.stat m.path with
    | .absent =>
      if env.mkdirAll m.path then
        match env.clone remote m.path with
        | some e => (some e, [.mkdirAll m.path, .cloneMirror remote m.path])
        | none => runFetch env m.path [.mkdirAll m.path, .cloneMirror remote m.path]
      else (some (gs "could not create " ++ m.path), [.mkdirAll m.path])
    | .file => (some (m.path ++ gs " exists, but is a file"), [])
    | .dir => runFetch env m.path []

end Backup

namespace Git2

/-- The credentials callback type of the libgit2 variant; its value is only
handed to the external clone operation and never inspected by this code. -/
def CredentialsCallback := GoStr → GoStr → Option GoStr

/-- The external effects used by the libgit2 variant (`mirror.go`):
`os.Stat`, `os.MkdirAll`, `git.Clone` (bare, with the credentials
callback), `git.OpenRepository`, `Repository.LoadRemote` and
`Remote.Fetch` (each git2go call returning `none` on success). -/
structure GitEnv where
  stat : GoStr → FileStat
  mkdirAll : GoStr → Bool
  clone : GoURL → GoStr → Option GoStr
  openRepository : GoStr → Option GoStr
  loadRemote : GoStr → GoStr → Option GoStr
  remoteFetch : GoStr → Option GoStr

/-- The external operations the libgit2 variant can perform. -/
inductive GitOp where
  | mkdirAll (path : GoStr)
  | cloneBare (remote : GoURL) (path : GoStr)
  | openRepo (path : GoStr)
  | loadRemote (path : GoStr) (name : GoStr)
  | fetch (path : GoStr)
deriving DecidableEq

/-- The `Mirror` struct of the libgit2 variant. -/
structure Mirror where
  path : GoStr
  remote : GoURL
  credentialsCallback : CredentialsCallback

/-- Model of `NewMirror` of the libgit2 variant. -/
def NewMirror (path : GoStr) (remote : GoURL)
    (credentialsCallback : CredentialsCallback) : Option Mirror :=
  some ⟨path, remote, credentialsCallback⟩

/-- The unconditional tail of `Mirror.Fetch`: open the repository, load the
`origin` remote and fetch from it, returning the first error. -/
def fetchTail (env : GitEnv) (path : GoStr) (ops : List GitOp) :
    Option GoStr × List GitOp :=
  match env.openRepository path with
  | some e => (some e, ops ++ [.openRepo path])
  | none =>
    match env.loadRemote path (gs "origin") with
    | some e => (some e, ops ++ [.openRepo path, .loadRemote path (gs "origin")])
    | none =>
      (env.remoteFetch path,
        ops ++ [.openRepo path, .loadRemote path (gs "origin"), .fetch path])

/-- Model of `(*Mirror).Fetch` (mirror.go lines 25–64), as the pair of the returned
error and the trace of external operations performed. -/
def Mirror.Fetch (env : GitEnv) (b : Option Mirror) :
    Option GoStr × List GitOp :=
  match b with
  | none => (none, [])
  | some m =>
    match env.stat m.path with
    | .absent =>
      if env.mkdirAll m.path then
        match env.clone m.remote m.path with
        | some e => (some e, [.mkdirAll m.path, .cloneBare m.remote m.path])
        | none => fetchTail env m.path [.mkdirAll m.path, .cloneBare m.remote m.path]
      else (some (gs "could not create " ++ m.path), [.mkdirAll m.path])
    | .file => (some (m.path ++ gs " exists, but is a file"), [])
    | .dir => fetchTail env m.path []

end Git2

/-- The fields of a `github.Repository` descriptor that the program reads. -/
structure Repo where
  name : GoStr
  cloneURL : GoStr
deriving DecidableEq

/-- One paginated API response: the page of repositories together with
`resp.NextPage`, or an error. -/
inductive ApiResult where
  | ok (repos : List Repo) (nextPage : Nat)
  | err (msg : GoStr)
deriving DecidableEq

/-- The GitHub API client surface `feedRepositoryQueue` uses:
`Repositories.List("", opt)` by page number, `Organizations.List("", opt)`
(returning the organizations' login names), and
`Repositories.ListByOrg(login, opt)` by page number. -/
structure Client where
  userRepos : Nat → ApiResult
  orgsList : Except GoStr (List GoStr)
  orgRepos : GoStr → Nat → ApiResult

/-- An event observable on the enumerator's two channels: a repository sent
on the work queue, a message sent on the log channel, or the closing of the
work queue. -/
inductive QEvent where
  | send (r : Repo)
  | log (m : GoStr)
  | close
deriving DecidableEq

/-- Whether a `QEvent` is a work-queue send. -/
def QEvent.isSend : QEvent → Bool
  | .send _ => true
  | _ => false

/-- One pagination loop of `feedRepositoryQueue`: starting from `opt.Page`,
list a page; on error log it and stop; on an empty page 0 log `emptyMsg` and
stop; otherwise send every repository of the page and continue with
`resp.NextPage` while it is non-zero. `fuel` bounds the number of
iterations (the Go loop is unbounded; every theorem below instantiates
`fuel` large enough for the chain of pages it talks about). -/
def paginateTrace (call : Nat → ApiResult) (emptyMsg : GoStr) :
    Nat → Nat → List QEvent
  | 0, _ => []
  | fuel + 1, page =>
    match call page with
    | .err e => [.log e]
    | .ok repos next =>
      if page = 0 ∧ repos = [] then [.log emptyMsg]
      else
        repos.map QEvent.send ++
          (if next ≠ 0 then paginateTrace call emptyMsg fuel next else [])

/-- The log message for an organization with no repositories. -/
def noOrgReposMsg (login : GoStr) : GoStr :=
  gs "no " ++ login ++ gs " repositories available"

/-- The first half of `feedRepositoryQueue`: paginate over the
authenticated user's own repositories starting at page 0. -/
def userTrace (c : Client) (fuel : Nat) : List QEvent :=
  paginateTrace c.userRepos (gs "No user repositories available") fuel 0

/-- The second half of `feedRepositoryQueue`: list the organizations (on
error, log it and enumerate none), then paginate each organization's
repositories in turn, starting at page 0. -/
def orgTrace (c : Client) (fuel : Nat) : List QEvent :=
  match c.orgsList with
  | .error e => [.log e]
  | .ok orgs =>
    orgs.flatMap fun o => paginateTrace (c.orgRepos o) (noOrgReposMsg o) fuel 0

/-- Model of `feedRepositoryQueue` (github-backup.go lines 98–157), as the trace of
events on the work queue and the log channel: the user pagination, then the
organization enumeration, then the deferred close of the work queue. -/
def feedRepositoryQueue (c : Client) (fuel : Nat) : List QEvent :=
  userTrace c fuel ++ orgTrace c fuel ++ [.close]

/-- An event observable from `processQueue` and its spawned tasks: a
`log.Println` error line, a message sent on the verbose-log channel, or the
completion signal sent on `done`. -/
inductive PEvent where
  | errlog (m : GoStr)
  | vlog (m : GoStr)
  | done
deriving DecidableEq

/-- The environment of `processQueue`: `url.Parse` (an error for a
malformed clone URL), the subprocess git environment used by
`Mirror.Backup`, the backup root `*backupDir` and the `*verbose` flag. -/
structure PQEnv where
  parse : GoStr → Except GoStr GoURL
  git : Backup.GitEnv
  backupDir : GoStr
  verbose : Bool

/-- The body of the goroutine `processQueue` spawns for one repository
(github-backup.go lines 164–187): parse the clone URL (a parse error is
logged and the repository skipped), announce "checking", derive the mirror
path, run `Mirror.Backup`, and log either the error or "complete". -/
def taskTrace (env : PQEnv) (repo : Repo) : List PEvent :=
  match env.parse repo.cloneURL with
  | .error e => [.errlog (repo.name ++ ' ' :: e)]
  | .ok remote =>
    let mirrorPath := derivedMirrorPath env.backupDir remote
    .vlog (gs "checking " ++ remote.path.drop 1) ::
      match (Backup.Mirror.Backup env.git (Backup.NewMirror mirrorPath) remote
              env.verbose).1 with
      | some e => [.errlog (remote.path ++ ' ' :: e)]
      | none => [.vlog (remote.path.drop 1 ++ gs " complete")]

/-- Model of `processQueue` (github-backup.go lines 159–192), sequentialized: drain
the (already fully determined) work queue, run one task per repository, and
after `wg.Wait` send the completion signal on `done`. -/
def processQueue (env : PQEnv) (queue : List Repo) : List PEvent :=
  queue.flatMap (taskTrace env) ++ [.done]

/-- The capacity of the progress channel: `msgQueue := make(chan string)`
(github-backup.go line 241) creates an unbuffered channel. -/
def msgQueueCapacity : Nat := 0

/-- Go channel-send semantics: a send on a channel completes without
blocking the sender exactly when the buffer has free space or a receiver is
currently waiting; otherwise the sender blocks (the message is never
dropped). -/
def sendCompletes (capacity buffered : Nat) (receiverReady : Bool) : Bool :=
  decide (buffered < capacity) || receiverReady

/-- A well-formed path segment: non-empty, free of the separator, and not
one of the special segments `path.Clean` rewrites. -/
def validSeg (s : GoStr) : Prop :=
  s ≠ [] ∧ '/' ∉ s ∧ s ≠ ['.'] ∧ s ≠ ['.', '.']

instance validSeg.decPred : DecidablePred validSeg := fun s => by
  unfold validSeg
  infer_instance

/-- A well-formed backup root: an absolute path whose segments are all
well formed. -/
def validRoot (r : GoStr) : Prop :=
  ∃ rsegs : List GoStr, rsegs ≠ [] ∧ (∀ s ∈ rsegs, validSeg s) ∧
    r = '/' :: joinSegs rsegs

theorem splitChar_ne_nil (c : Char) (s : GoStr) : splitChar c s ≠ [] := by
  cases s with
  | nil => simp [splitChar]
  | cons x xs =>
    simp only [splitChar]
    split <;> simp

theorem splitChar_of_not_mem (c : Char) (s : GoStr) (h : c ∉ s) :
    splitChar c s = [s] := by
  induction s with
  | nil => rfl
  | cons x xs ih =>
    simp only [List.mem_cons, not_or] at h
    simp only [splitChar, ih h.2]
    rw [if_neg fun hxc => h.1 hxc.symm]
    rfl

theorem splitChar_append (c : Char) (xs ys : GoStr) :
    splitChar c (xs ++ c :: ys) = splitChar c xs ++ splitChar c ys := by
  induction xs with
  | nil => simp [splitChar]
  | cons x xs ih =>
    by_cases hx : x = c
    · subst hx
      simp [splitChar, ih]
    · obtain ⟨y, t, hyt⟩ : ∃ y t, splitChar c xs = y :: t := by
        cases hsp : splitChar c xs with
        | nil => exact absurd hsp (splitChar_ne_nil c xs)
        | cons y t => exact ⟨y, t, rfl⟩
      simp [splitChar, hx, ih, hyt]

theorem splitChar_joinSegs (segs : List GoStr) (h0 : segs ≠ [])
    (h : ∀ s ∈ segs, '/' ∉ s) : splitChar '/' (joinSegs segs) = segs := by
  induction segs with
  | nil => exact absurd rfl h0
  | cons s rest ih =>
    cases rest with
    | nil => exact splitChar_of_not_mem _ _ (h s (by simp))
    | cons t r =>
      simp only [joinSegs]
      rw [splitChar_append, splitChar_of_not_mem _ _ (h s (by simp)),
        ih (by simp) fun u hu => h u (List.mem_cons_of_mem _ hu)]
      rfl

theorem cleanSegsAux_no_dots (rooted : Bool) (segs : List GoStr) :
    ∀ acc : List GoStr,
      (∀ s ∈ segs, s = [] ∨ (s ≠ ['.'] ∧ s ≠ ['.', '.'])) →
      cleanSegsAux rooted acc segs = acc.reverse ++ segs.filter (· ≠ []) := by
  induction segs with
  | nil =>
    intro acc _
    simp [cleanSegsAux]
  | cons s rest ih =>
    intro acc h
    by_cases hnil : s = []
    · subst hnil
      rw [show cleanSegsAux rooted acc ([] :: rest) = cleanSegsAux rooted acc rest by
          simp [cleanSegsAux],
        ih acc fun u hu => h u (List.mem_cons_of_mem _ hu)]
      simp
    · obtain ⟨hdot, hddot⟩ : s ≠ ['.'] ∧ s ≠ ['.', '.'] :=
        (h s (by simp)).resolve_left hnil
      rw [show cleanSegsAux rooted acc (s :: rest) = cleanSegsAux rooted (s :: acc) rest by
          simp [cleanSegsAux, hnil, hdot, hddot],
        ih (s :: acc) fun u hu => h u (List.mem_cons_of_mem _ hu)]
      simp [List.filter_cons, hnil]

theorem append_sep_inj (s : GoStr) :
    ∀ t u v : GoStr, '/' ∉ s → '/' ∉ t →
      s ++ '/' :: u = t ++ '/' :: v → s = t ∧ u = v := by
  induction s with
  | nil =>
    intro t u v _ ht h
    cases t with
    | nil => simpa using h
    | cons d t' =>
      simp only [List.nil_append, List.cons_append, List.cons.injEq] at h
      exact absurd (List.mem_cons.mpr (Or.inl h.1)) ht
  | cons a s' ih =>
    intro t u v hs ht h
    cases t with
    | nil =>
      simp only [List.cons_append, List.nil_append, List.cons.injEq] at h
      exact absurd (List.mem_cons.mpr (Or.inl h.1.symm)) hs
    | cons d t' =>
      simp only [List.cons_append, List.cons.injEq] at h
      obtain ⟨hst, huv⟩ := ih t' u v (fun hm => hs (List.mem_cons_of_mem _ hm))
        (fun hm => ht (List.mem_cons_of_mem _ hm)) h.2
      exact ⟨by rw [h.1, hst], huv⟩

theorem joinSegs_inj (L1 : List GoStr) :
    ∀ L2 : List GoStr,
      (∀ s ∈ L1, s ≠ [] ∧ '/' ∉ s) → (∀ s ∈ L2, s ≠ [] ∧ '/' ∉ s) →
      joinSegs L1 = joinSegs L2 → L1 = L2 := by
  induction L1 with
  | nil =>
    intro L2 _ h2 h
    cases L2 with
    | nil => rfl
    | cons t r2 =>
      cases r2 with
      | nil => exact absurd h.symm (h2 t (by simp)).1
      | cons t2 r2' =>
        simp only [joinSegs] at h
        exact absurd (List.append_eq_nil.mp h.symm).1 (h2 t (by simp)).1
  | cons s r1 ih =>
    intro L2 h1 h2 h
    cases L2 with
    | nil =>
      cases r1 with
      | nil => exact absurd h (h1 s (by simp)).1
      | cons s2 r1' =>
        simp only [joinSegs] at h
        exact absurd (List.append_eq_nil.mp h).1 (h1 s (by simp)).1
    | cons t r2 =>
      cases r1 with
      | nil =>
        cases r2 with
        | nil =>
          simp only [joinSegs] at h
          rw [h]
        | cons t2 r2' =>
          simp only [joinSegs] at h
          have : '/' ∈ s := by
            rw [h]
            simp
          exact absurd this (h1 s (by simp)).2
      | cons s2 r1' =>
        cases r2 with
        | nil =>
          cases r1' -- not needed, but keeps the two branches parallel
          all_goals
            simp only [joinSegs] at h
            have : '/' ∈ t := by
              rw [← h]
              simp
            exact absurd this (h2 t (by simp)).2
        | cons t2 r2' =>
          simp only [joinSegs] at h
          obtain ⟨hst, hj⟩ := append_sep_inj s t _ _ (h1 s (by simp)).2
            (h2 t (by simp)).2 h
          have := ih (t2 :: r2')
            (fun u hu => h1 u (List.mem_cons_of_mem _ hu))
            (fun u hu => h2 u (List.mem_cons_of_mem _ hu)) hj
          rw [hst, this]

theorem splitChar_cons_self (c : Char) (xs : GoStr) :
    splitChar c (c :: xs) = [] :: splitChar c xs := by
  simp [splitChar]

theorem derivedMirrorPath_eval (rsegs : List GoStr) (h o r : GoStr)
    (hroot : rsegs ≠ []) (hrv : ∀ s ∈ rsegs, validSeg s)
    (hh : validSeg h) (hhc : ':' ∉ h) (ho : validSeg o) (hr : validSeg r) :
    derivedMirrorPath ('/' :: joinSegs rsegs) ⟨h, '/' :: (o ++ '/' :: r)⟩
      = '/' :: joinSegs (rsegs ++ [h, o, r]) := by
  have hhost : (splitChar ':' h).headD [] = h := by
    rw [splitChar_of_not_mem _ _ hhc]
    rfl
  have hpath : splitChar '/' ('/' :: (o ++ '/' :: r)) = [[], o, r] := by
    rw [splitChar_cons_self, splitChar_append,
      splitChar_of_not_mem _ _ ho.2.1, splitChar_of_not_mem _ _ hr.2.1]
    rfl
  rw [derivedMirrorPath]
  simp only [hhost, hpath, List.cons_append, List.nil_append]
  have hraw : goJoinRaw ['/' :: joinSegs rsegs, h, [], o, r]
      = '/' :: (joinSegs rsegs ++ '/' :: (h ++ '/' :: ('/' :: (o ++ '/' :: r)))) := by
    simp [goJoinRaw, List.append_assoc]
  have hsplit : splitChar '/' (goJoinRaw ['/' :: joinSegs rsegs, h, [], o, r])
      = [] :: (rsegs ++ [h, [], o, r]) := by
    rw [hraw, splitChar_cons_self,
      splitChar_append, splitChar_joinSegs rsegs hroot fun s hs => (hrv s hs).2.1,
      splitChar_append, splitChar_of_not_mem _ _ hh.2.1,
      splitChar_cons_self,
      splitChar_append, splitChar_of_not_mem _ _ ho.2.1,
      splitChar_of_not_mem _ _ hr.2.1]
    simp
  rw [goJoin, if_neg (by simp)]
  rw [clean, if_neg (by rw [hraw]; simp), if_pos (by rw [hraw]; simp)]
  rw [hsplit]
  rw [show cleanSegsAux true [] ([] :: (rsegs ++ [h, [], o, r]))
        = cleanSegsAux true [] (rsegs ++ [h, [], o, r]) by simp [cleanSegsAux]]
  rw [cleanSegsAux_no_dots true _ [] ?_]
  · rw [List.filter_append, List.filter_eq_self.mpr fun s hs => by
        simpa using (hrv s hs).1]
    congr 2
    simp [List.filter_cons, hh.1, ho.1, hr.1]
  · intro s hs
    rcases List.mem_append.mp hs with hs | hs
    · exact Or.inr ⟨(hrv s hs).2.2.1, (hrv s hs).2.2.2⟩
    · simp only [List.mem_cons, List.mem_singleton] at hs
      rcases hs with rfl | rfl | rfl | rfl | h'
      · exact Or.inr ⟨hh.2.2.1, hh.2.2.2⟩
      · exact Or.inl rfl
      · exact Or.inr ⟨ho.2.2.1, ho.2.2.2⟩
      · exact Or.inr ⟨hr.2.2.1, hr.2.2.2⟩
      · exact absurd h' (List.not_mem_nil s)

theorem derivedMirrorPath_strip_port (backupDir host port p : GoStr)
    (h : ':' ∉ host) :
    derivedMirrorPath backupDir ⟨host ++ ':' :: port, p⟩
      = derivedMirrorPath backupDir ⟨host, p⟩ := by
  rw [derivedMirrorPath, derivedMirrorPath]
  simp only [splitChar_append, splitChar_of_not_mem _ _ h]
  rfl

/-- Claim C2: the mirror-path derivation is a pure deterministic function
of the backup root and the remote URL: it strips a trailing `:port` from
the host, splits the URL path on `/`, and joins backup root, stripped host
and path segments; repeated calls on identical inputs agree, and for two
valid inputs whose (host, owner, repository) triples differ the derived
paths differ. -/
theorem C2_mirrorPath_deterministic_injective
    (root : GoStr) (hroot : validRoot root)
    (h1 o1 r1 h2 o2 r2 : GoStr)
    (hv1 : validSeg h1 ∧ validSeg o1 ∧ validSeg r1) (hc1 : ':' ∉ h1)
    (hv2 : validSeg h2 ∧ validSeg o2 ∧ validSeg r2) (hc2 : ':' ∉ h2)
    (hne : (h1, o1, r1) ≠ (h2, o2, r2)) :
    (∀ (b : GoStr) (u : GoURL), derivedMirrorPath b u = derivedMirrorPath b u)
    ∧ (∀ (b host port p : GoStr), ':' ∉ host →
        derivedMirrorPath b ⟨host ++ ':' :: port, p⟩ = derivedMirrorPath b ⟨host, p⟩)
    ∧ derivedMirrorPath root ⟨h1, '/' :: (o1 ++ '/' :: r1)⟩
        ≠ derivedMirrorPath root ⟨h2, '/' :: (o2 ++ '/' :: r2)⟩ := by
  obtain ⟨rsegs, hrne, hrv, rfl⟩ := hroot
  refine ⟨fun b u => rfl,
    fun b host port p hp => derivedMirrorPath_strip_port b host port p hp, ?_⟩
  rw [derivedMirrorPath_eval rsegs h1 o1 r1 hrne hrv hv1.1 hc1 hv1.2.1 hv1.2.2,
    derivedMirrorPath_eval rsegs h2 o2 r2 hrne hrv hv2.1 hc2 hv2.2.1 hv2.2.2]
  intro heq
  injection heq with _ heq
  have hmem : ∀ (a b c : GoStr), validSeg a → validSeg b → validSeg c →
      ∀ s ∈ rsegs ++ [a, b, c], s ≠ [] ∧ '/' ∉ s := by
    intro a b c ha hb hc s hs
    rcases List.mem_append.mp hs with hs | hs
    · exact ⟨(hrv s hs).1, (hrv s hs).2.1⟩
    · simp only [List.mem_cons, List.mem_singleton] at hs
      rcases hs with rfl | rfl | rfl | h'
      · exact ⟨ha.1, ha.2.1⟩
      · exact ⟨hb.1, hb.2.1⟩
      · exact ⟨hc.1, hc.2.1⟩
      · exact absurd h' (List.not_mem_nil s)
  have hlists := joinSegs_inj (rsegs ++ [h1, o1, r1]) (rsegs ++ [h2, o2, r2])
    (hmem h1 o1 r1 hv1.1 hv1.2.1 hv1.2.2)
    (hmem h2 o2 r2 hv2.1 hv2.2.1 hv2.2.2) heq
  have htriple : [h1, o1, r1] = [h2, o2, r2] :=
    List.append_cancel_left hlists
  simp only [List.cons.injEq, and_true] at htriple
  exact hne (by simp [htriple.1, htriple.2.1, htriple.2.2])

/-- Witness for C2: the derivation distinguishes two concrete repositories
of different owners under the same backup root. -/
theorem C2_witness :
    validRoot (gs "/backups")
    ∧ derivedMirrorPath (gs "/backups")
        ⟨gs "github.com", '/' :: (gs "alice" ++ '/' :: gs "a.git")⟩
      ≠ derivedMirrorPath (gs "/backups")
        ⟨gs "github.com", '/' :: (gs "bob" ++ '/' :: gs "a.git")⟩ :=
  have hroot : validRoot (gs "/backups") :=
    ⟨[gs "backups"], by decide, by decide, by decide⟩
  ⟨hroot,
    (C2_mirrorPath_deterministic_injective (gs "/backups") hroot
      (gs "github.com") (gs "alice") (gs "a.git")
      (gs "github.com") (gs "bob") (gs "a.git")
      ⟨by decide, by decide, by decide⟩ (by decide)
      ⟨by decide, by decide, by decide⟩ (by decide) (by decide)).2.2⟩

/-- Claim C10: on a nil `Mirror` receiver, `Backup` (subprocess variant)
and `Fetch` (libgit2 variant) return a nil error and perform no
filesystem, clone or fetch operation. -/
theorem C10_nil_receiver (benv : Backup.GitEnv) (genv : Git2.GitEnv)
    (remote : GoURL) (verbose : Bool) :
    Backup.Mirror.Backup benv none remote verbose = (none, [])
    ∧ Git2.Mirror.Fetch genv none = (none, []) :=
  ⟨rfl, rfl⟩

/-- Claim C1 as stated is false on the code: with an absent mirror path and
all operations succeeding, the subprocess variant performs the mirror clone
and then additionally the same incremental fetch the existing-path branch
performs, so the clone path is not fetch-free. -/
theorem C1_counterexample :
    Backup.GitOp.fetchPrune (gs "/b/github.com/alice/a.git")
      ∈ (Backup.Mirror.Backup
          ⟨fun _ => .absent, fun _ => true, fun _ _ => none, fun _ => none⟩
          (Backup.NewMirror (gs "/b/github.com/alice/a.git"))
          ⟨gs "github.com", gs "/alice/a.git"⟩ false).2 := by
  decide

/-- Claim C1 amended: one synchronization attempt selects exactly one of
two branches by inspecting the filesystem — an absent path gets directory
creation and a full mirror clone, an existing directory gets neither — and
in both branches the attempt then performs the incremental fetch; a clone
is never performed for an existing directory. Both variants behave this
way. -/
theorem C1_branches (env : Backup.GitEnv) (genv : Git2.GitEnv)
    (path : GoStr) (remote : GoURL) (verbose : Bool) (m2 : Git2.Mirror) :
    (env.stat path = .absent → env.mkdirAll path = true →
      env.clone remote path = none →
      (Backup.Mirror.Backup env (Backup.NewMirror path) remote verbose).2
        = [.mkdirAll path, .cloneMirror remote path, .fetchPrune path])
    ∧ (env.stat path = .dir →
      (Backup.Mirror.Backup env (Backup.NewMirror path) remote verbose).2
        = [.fetchPrune path])
    ∧ (genv.stat m2.path = .absent → genv.mkdirAll m2.path = true →
      genv.clone m2.remote m2.path = none →
      (Git2.Mirror.Fetch genv (some m2)).2
        = [.mkdirAll m2.path, .cloneBare m2.remote m2.path]
            ++ (Git2.fetchTail genv m2.path []).2)
    ∧ (genv.stat m2.path = .dir →
      (Git2.Mirror.Fetch genv (some m2)).2 = (Git2.fetchTail genv m2.path []).2
      ∧ ∀ (u : GoURL) (p : GoStr),
          Git2.GitOp.cloneBare u p ∉ (Git2.fetchTail genv m2.path []).2) := by
  have htail : ∀ p ops, (Git2.fetchTail genv p ops).2
      = ops ++ (Git2.fetchTail genv p []).2 := by
    intro p ops
    rw [Git2.fetchTail, Git2.fetchTail]
    cases genv.openRepository p with
    | some e => rfl
    | none =>
      cases genv.loadRemote p (gs "origin") with
      | some e => simp
      | none => simp
  refine ⟨?_, ?_, ?_, ?_⟩
  · intro hstat hmk hclone
    simp [Backup.Mirror.Backup, Backup.NewMirror, Backup.runFetch, hstat, hmk, hclone]
  · intro hstat
    simp [Backup.Mirror.Backup, Backup.NewMirror, Backup.runFetch, hstat]
  · intro hstat hmk hclone
    simp only [Git2.Mirror.Fetch, hstat, hmk, if_true, hclone]
    exact htail m2.path [.mkdirAll m2.path, .cloneBare m2.remote m2.path]
  · intro hstat
    refine ⟨by simp [Git2.Mirror.Fetch, hstat], ?_⟩
    intro u p
    rw [Git2.fetchTail]
    cases genv.openRepository m2.path with
    | some e => simp
    | none =>
      cases genv.loadRemote m2.path (gs "origin") with
      | some e => simp
      | none => simp

/-- Witness for the amended C1 at concrete all-succeeding environments,
for an absent path and for an existing directory. -/
theorem C1_branches_witness :
    (Backup.Mirror.Backup
        ⟨fun _ => .absent, fun _ => true, fun _ _ => none, fun _ => none⟩
        (Backup.NewMirror (gs "/b/m")) ⟨gs "h", gs "/o/r"⟩ false).2
      = [.mkdirAll (gs "/b/m"), .cloneMirror ⟨gs "h", gs "/o/r"⟩ (gs "/b/m"),
         .fetchPrune (gs "/b/m")]
    ∧ (Backup.Mirror.Backup
        ⟨fun _ => .dir, fun _ => true, fun _ _ => none, fun _ => none⟩
        (Backup.NewMirror (gs "/b/m")) ⟨gs "h", gs "/o/r"⟩ false).2
      = [.fetchPrune (gs "/b/m")] :=
  ⟨(C1_branches ⟨fun _ => .absent, fun _ => true, fun _ _ => none, fun _ => none⟩
      ⟨fun _ => .dir, fun _ => true, fun _ _ => none, fun _ => none,
        fun _ _ => none, fun _ => none⟩
      (gs "/b/m") ⟨gs "h", gs "/o/r"⟩ false
      ⟨gs "/b/m", ⟨gs "h", gs "/o/r"⟩, fun _ _ => none⟩).1 rfl rfl rfl,
   (C1_branches ⟨fun _ => .dir, fun _ => true, fun _ _ => none, fun _ => none⟩
      ⟨fun _ => .dir, fun _ => true, fun _ _ => none, fun _ => none,
        fun _ _ => none, fun _ => none⟩
      (gs "/b/m") ⟨gs "h", gs "/o/r"⟩ false
      ⟨gs "/b/m", ⟨gs "h", gs "/o/r"⟩, fun _ _ => none⟩).2.1 rfl⟩

/-- Claim C6: in both variants, a directory-creation failure on an absent
path aborts with "could not create <path>" before any clone or fetch, and a
path that exists as a non-directory aborts with "<path> exists, but is a
file" with no operation performed at all. -/
theorem C6_conflict_errors (env : Backup.GitEnv) (genv : Git2.GitEnv)
    (path : GoStr) (remote : GoURL) (verbose : Bool) (m2 : Git2.Mirror) :
    (env.stat path = .absent → env.mkdirAll path = false →
      Backup.Mirror.Backup env (Backup.NewMirror path) remote verbose
        = (some (gs "could not create " ++ path), [.mkdirAll path]))
    ∧ (env.stat path = .file →
      Backup.Mirror.Backup env (Backup.NewMirror path) remote verbose
        = (some (path ++ gs " exists, but is a file"), []))
    ∧ (genv.stat m2.path = .absent → genv.mkdirAll m2.path = false →
      Git2.Mirror.Fetch genv (some m2)
        = (some (gs "could not create " ++ m2.path), [.mkdirAll m2.path]))
    ∧ (genv.stat m2.path = .file →
      Git2.Mirror.Fetch genv (some m2)
        = (some (m2.path ++ gs " exists, but is a file"), [])) := by
  refine ⟨?_, ?_, ?_, ?_⟩
  · intro hstat hmk
    simp [Backup.Mirror.Backup, Backup.NewMirror, hstat, hmk]
  · intro hstat
    simp [Backup.Mirror.Backup, Backup.NewMirror, hstat]
  · intro hstat hmk
    simp [Git2.Mirror.Fetch, hstat, hmk]
  · intro hstat
    simp [Git2.Mirror.Fetch, hstat]

/-- Witness for C6: concrete environments exhibiting the mkdir failure and
the file conflict. -/
theorem C6_witness :
    Backup.Mirror.Backup ⟨fun _ => .absent, fun _ => false, fun _ _ => none, fun _ => none⟩
        (Backup.NewMirror (gs "/b/m")) ⟨gs "h", gs "/o/r"⟩ false
      = (some (gs "could not create /b/m"), [.mkdirAll (gs "/b/m")])
    ∧ Backup.Mirror.Backup ⟨fun _ => .file, fun _ => true, fun _ _ => none, fun _ => none⟩
        (Backup.NewMirror (gs "/b/m")) ⟨gs "h", gs "/o/r"⟩ false
      = (some (gs "/b/m exists, but is a file"), []) := by
  have h1 := (C6_conflict_errors
    ⟨fun _ => .absent, fun _ => false, fun _ _ => none, fun _ => none⟩
    ⟨fun _ => .dir, fun _ => true, fun _ _ => none, fun _ => none,
      fun _ _ => none, fun _ => none⟩
    (gs "/b/m") ⟨gs "h", gs "/o/r"⟩ false
    ⟨gs "/b/m", ⟨gs "h", gs "/o/r"⟩, fun _ _ => none⟩).1 rfl rfl
  have h2 := (C6_conflict_errors
    ⟨fun _ => .file, fun _ => true, fun _ _ => none, fun _ => none⟩
    ⟨fun _ => .dir, fun _ => true, fun _ _ => none, fun _ => none,
      fun _ _ => none, fun _ => none⟩
    (gs "/b/m") ⟨gs "h", gs "/o/r"⟩ false
    ⟨gs "/b/m", ⟨gs "h", gs "/o/r"⟩, fun _ _ => none⟩).2.1 rfl
  refine ⟨?_, ?_⟩
  · rw [h1]
    decide
  · rw [h2]
    decide

theorem close_not_mem_paginateTrace (call : Nat → ApiResult) (msg : GoStr) :
    ∀ fuel page : Nat, QEvent.close ∉ paginateTrace call msg fuel page := by
  intro fuel
  induction fuel with
  | zero =>
    intro page
    simp [paginateTrace]
  | succ n ih =>
    intro page
    cases hcall : call page with
    | err e => simp [paginateTrace, hcall]
    | ok repos next =>
      by_cases hp : page = 0 ∧ repos = []
      · obtain ⟨rfl, rfl⟩ := hp
        simp [paginateTrace, hcall]
      · simp only [paginateTrace, hcall]
        rw [if_neg hp]
        intro hmem
        rcases List.mem_append.mp hmem with hm | hm
        · obtain ⟨r, _, hr⟩ := List.mem_map.mp hm
          cases hr
        · split at hm
          · exact ih next hm
          · cases hm

theorem close_not_mem_userTrace (c : Client) (fuel : Nat) :
    QEvent.close ∉ userTrace c fuel :=
  close_not_mem_paginateTrace _ _ fuel 0

theorem close_not_mem_orgTrace (c : Client) (fuel : Nat) :
    QEvent.close ∉ orgTrace c fuel := by
  rw [orgTrace]
  cases c.orgsList with
  | error e => simp
  | ok orgs =>
    intro hm
    obtain ⟨o, _, ho⟩ := List.mem_flatMap.mp hm
    exact close_not_mem_paginateTrace _ _ fuel 0 ho

/-- Claim C3: the enumerator emits every one of the user's own repositories
before any organization repository; it keeps paginating while the
next-page indicator is non-zero, so an empty non-first page does not end a
collection; and for a user with zero personal repositories and two
organizations of one repository each, exactly the two organization
repositories are emitted. -/
theorem C3_enumeration_order :
    (∀ (c : Client) (fuel : Nat),
      (feedRepositoryQueue c fuel).filter QEvent.isSend
        = (userTrace c fuel).filter QEvent.isSend
            ++ (orgTrace c fuel).filter QEvent.isSend)
    ∧ (feedRepositoryQueue
        ⟨fun _ => .ok [] 0,
         .ok [gs "orga", gs "orgb"],
         fun o _ => if o = gs "orga" then .ok [⟨gs "ra", gs "u1"⟩] 0
                    else .ok [⟨gs "rb", gs "u2"⟩] 0⟩ 2).filter QEvent.isSend
      = [.send ⟨gs "ra", gs "u1"⟩, .send ⟨gs "rb", gs "u2"⟩]
    ∧ (feedRepositoryQueue
        ⟨fun p => if p = 0 then .ok [⟨gs "r1", gs "u1"⟩] 2
                  else if p = 2 then .ok [] 3
                  else if p = 3 then .ok [⟨gs "r2", gs "u2"⟩] 0
                  else .ok [] 0,
         .ok [],
         fun _ _ => .ok [] 0⟩ 5).filter QEvent.isSend
      = [.send ⟨gs "r1", gs "u1"⟩, .send ⟨gs "r2", gs "u2"⟩] := by
  refine ⟨?_, by decide, by decide⟩
  intro c fuel
  simp [feedRepositoryQueue, List.filter_append, QEvent.isSend]

/-- Claim C4: an error on the user's own listing still lets organization
enumeration proceed; an error on the organization list aborts organization
enumeration entirely; an error on one organization's listing leaves the
remaining organizations enumerated; and the work queue is closed exactly
once, after both enumeration sources are done. -/
theorem C4_error_scoping :
    (∀ (c : Client) (fuel : Nat) (e : GoStr), c.userRepos 0 = .err e →
      feedRepositoryQueue c (fuel + 1)
        = .log e :: (orgTrace c (fuel + 1) ++ [.close]))
    ∧ (∀ (c : Client) (fuel : Nat) (e : GoStr), c.orgsList = .error e →
      feedRepositoryQueue c fuel = userTrace c fuel ++ [.log e, .close])
    ∧ (∀ (c : Client) (fuel : Nat) (e o1 o2 : GoStr),
        c.orgsList = .ok [o1, o2] → c.orgRepos o1 0 = .err e → 0 < fuel →
      orgTrace c fuel
        = .log e :: paginateTrace (c.orgRepos o2) (noOrgReposMsg o2) fuel 0)
    ∧ (∀ (c : Client) (fuel : Nat),
      (feedRepositoryQueue c fuel).count QEvent.close = 1
      ∧ ∃ pre, feedRepositoryQueue c fuel = pre ++ [QEvent.close]
          ∧ QEvent.close ∉ pre) := by
  refine ⟨?_, ?_, ?_, ?_⟩
  · intro c fuel e h
    simp [feedRepositoryQueue, userTrace, paginateTrace, h]
  · intro c fuel e h
    simp [feedRepositoryQueue, orgTrace, h]
  · intro c fuel e o1 o2 horgs herr hfuel
    obtain ⟨k, rfl⟩ : ∃ k, fuel = k + 1 := ⟨fuel - 1, by omega⟩
    simp [orgTrace, horgs, paginateTrace, herr]
  · intro c fuel
    constructor
    · simp [feedRepositoryQueue,
        List.count_eq_zero.mpr (close_not_mem_userTrace c fuel),
        List.count_eq_zero.mpr (close_not_mem_orgTrace c fuel)]
    · refine ⟨userTrace c fuel ++ orgTrace c fuel, by
        simp [feedRepositoryQueue], ?_⟩
      intro hm
      rcases List.mem_append.mp hm with hm | hm
      · exact close_not_mem_userTrace c fuel hm
      · exact close_not_mem_orgTrace c fuel hm

/-- Witness for C4: the three failure scenarios at concrete clients. -/
theorem C4_witness :
    feedRepositoryQueue
        ⟨fun _ => .err (gs "user boom"), .ok [], fun _ _ => .ok [] 0⟩ 1
      = [.log (gs "user boom"), .close]
    ∧ feedRepositoryQueue
        ⟨fun _ => .ok [] 0, .error (gs "orgs boom"), fun _ _ => .ok [] 0⟩ 1
      = [.log (gs "No user repositories available"), .log (gs "orgs boom"), .close]
    ∧ orgTrace
        ⟨fun _ => .ok [] 0, .ok [gs "o1", gs "o2"],
         fun o _ => if o = gs "o1" then .err (gs "o1 boom")
                    else .ok [⟨gs "rb", gs "u2"⟩] 0⟩ 1
      = [.log (gs "o1 boom"), .send ⟨gs "rb", gs "u2"⟩] := by
  have h1 := C4_error_scoping.1
    ⟨fun _ => .err (gs "user boom"), .ok [], fun _ _ => .ok [] 0⟩ 0
    (gs "user boom") rfl
  have h2 := C4_error_scoping.2.1
    ⟨fun _ => .ok [] 0, .error (gs "orgs boom"), fun _ _ => .ok [] 0⟩ 1
    (gs "orgs boom") rfl
  have h3 := C4_error_scoping.2.2.1
    ⟨fun _ => .ok [] 0, .ok [gs "o1", gs "o2"],
     fun o _ => if o = gs "o1" then .err (gs "o1 boom")
                else .ok [⟨gs "rb", gs "u2"⟩] 0⟩ 1
    (gs "o1 boom") (gs "o1") (gs "o2") rfl (by decide) (by decide)
  refine ⟨?_, ?_, ?_⟩
  · rw [h1]
    decide
  · rw [h2]
    decide
  · rw [h3]
    decide

theorem done_not_mem_taskTrace (env : PQEnv) (repo : Repo) :
    PEvent.done ∉ taskTrace env repo := by
  rw [taskTrace]
  cases env.parse repo.cloneURL with
  | error e => simp
  | ok remote =>
    simp only []
    intro hm
    rcases List.mem_cons.mp hm with hm | hm
    · cases hm
    · split at hm <;> simp_all

/-- Claim C5: the dispatcher's completion signal appears exactly once in
its trace, as the last event, after the work queue is drained and every
spawned task's trace has run to its end. -/
theorem C5_done_once_after_tasks (env : PQEnv) (queue : List Repo) :
    (processQueue env queue).count PEvent.done = 1
    ∧ processQueue env queue = queue.flatMap (taskTrace env) ++ [PEvent.done]
    ∧ PEvent.done ∉ queue.flatMap (taskTrace env) := by
  have hnm : PEvent.done ∉ queue.flatMap (taskTrace env) := by
    intro hm
    obtain ⟨r, _, hr⟩ := List.mem_flatMap.mp hm
    exact done_not_mem_taskTrace env r hr
  refine ⟨?_, rfl, hnm⟩
  simp [processQueue, List.count_eq_zero.mpr hnm]

/-- Claim C8: each spawned task announces "checking <path>" before
synchronizing and ends in exactly one terminal state: "<path> complete" on
success or an error line on failure; a malformed clone URL yields a single
error line for that repository alone, and a task's events do not depend on
its siblings. -/
theorem C8_task_messages (env : PQEnv) (repo : Repo) :
    (∀ e, env.parse repo.cloneURL = .error e →
      taskTrace env repo = [.errlog (repo.name ++ ' ' :: e)])
    ∧ (∀ remote, env.parse repo.cloneURL = .ok remote →
      (Backup.Mirror.Backup env.git
          (Backup.NewMirror (derivedMirrorPath env.backupDir remote)) remote
          env.verbose).1 = none →
      taskTrace env repo
        = [.vlog (gs "checking " ++ remote.path.drop 1),
           .vlog (remote.path.drop 1 ++ gs " complete")])
    ∧ (∀ remote e, env.parse repo.cloneURL = .ok remote →
      (Backup.Mirror.Backup env.git
          (Backup.NewMirror (derivedMirrorPath env.backupDir remote)) remote
          env.verbose).1 = some e →
      taskTrace env repo
        = [.vlog (gs "checking " ++ remote.path.drop 1),
           .errlog (remote.path ++ ' ' :: e)])
    ∧ (∀ q1 q2 : List Repo,
      processQueue env (q1 ++ repo :: q2)
        = q1.flatMap (taskTrace env) ++ taskTrace env repo
            ++ q2.flatMap (taskTrace env) ++ [PEvent.done]) := by
  refine ⟨?_, ?_, ?_, ?_⟩
  · intro e h
    simp [taskTrace, h]
  · intro remote h hb
    simp [taskTrace, h, hb]
  · intro remote e h hb
    simp [taskTrace, h, hb]
  · intro q1 q2
    simp [processQueue, List.flatMap_append, List.append_assoc]

/-- Witness for C8: with a parser failing on one malformed URL and git
operations succeeding, the malformed repository yields one error line and
its healthy sibling still completes. -/
theorem C8_witness :
    taskTrace
        ⟨fun u => if u = gs "::bad" then .error (gs "parse error") else .ok ⟨gs "h", gs "/o/r"⟩,
         ⟨fun _ => .dir, fun _ => true, fun _ _ => none, fun _ => none⟩,
         gs "/b", false⟩
        ⟨gs "bad", gs "::bad"⟩
      = [.errlog (gs "bad parse error")]
    ∧ taskTrace
        ⟨fun u => if u = gs "::bad" then .error (gs "parse error") else .ok ⟨gs "h", gs "/o/r"⟩,
         ⟨fun _ => .dir, fun _ => true, fun _ _ => none, fun _ => none⟩,
         gs "/b", false⟩
        ⟨gs "good", gs "u"⟩
      = [.vlog (gs "checking o/r"), .vlog (gs "o/r complete")] := by
  have h1 := (C8_task_messages
    ⟨fun u => if u = gs "::bad" then .error (gs "parse error") else .ok ⟨gs "h", gs "/o/r"⟩,
     ⟨fun _ => .dir, fun _ => true, fun _ _ => none, fun _ => none⟩,
     gs "/b", false⟩
    ⟨gs "bad", gs "::bad"⟩).1 (gs "parse error") (by rfl)
  have h2 := (C8_task_messages
    ⟨fun u => if u = gs "::bad" then .error (gs "parse error") else .ok ⟨gs "h", gs "/o/r"⟩,
     ⟨fun _ => .dir, fun _ => true, fun _ _ => none, fun _ => none⟩,
     gs "/b", false⟩
    ⟨gs "good", gs "u"⟩).2.1 ⟨gs "h", gs "/o/r"⟩ (by rfl) rfl
  refine ⟨?_, ?_⟩
  · rw [h1]
    decide
  · rw [h2]
    decide

/-- Claim C9 is false on the code: `msgQueue := make(chan string)` creates
an unbuffered channel, and under Go channel-send semantics a send on it
with no ready receiver does not complete — the producer blocks; the
message is not dropped. -/
theorem C9_counterexample :
    sendCompletes msgQueueCapacity 0 false = false := by
  decide

/-- Claim C9 amended: a send on the progress channel completes without
blocking the producer exactly when the consumer is ready to receive it; if
no consumer is listening the producer blocks until one is, so a slow or
absent log consumer can delay enumeration and synchronization tasks. -/
theorem C9_rendezvous (buffered : Nat) (receiverReady : Bool) :
    sendCompletes msgQueueCapacity buffered receiverReady = receiverReady := by
  simp [sendCompletes, msgQueueCapacity]
